import Mathlib

/-!
Shallow embedding of `src/app.py` (an emotion-detection app: face detection,
emotion classification, and a two-backend usage log), together with proofs
settling the specification claims about it.

Conventions of the embedding:
* machine data (images, byte payloads) are plain lists;
* probabilities and confidence scores are rationals;
* Python exceptions are modelled explicitly (`raised` constructors) where a
  claim is about raising, and by `Option` (`none`) where the code under the
  claim's hypotheses never reaches the failing case;
* external model outputs (MTCNN candidate boxes/probabilities, classifier
  score rows) are inputs to the embedded functions, which model only the
  repository's own logic over those outputs.
-/

/-- Model of `np.argmax` restricted to the maximum of a rational list: the
index of the first occurrence of the maximum value (`np.argmax(probs)` at
src/app.py line 107, and the top-ranked class index inside the classifier). -/
def argmax : List ℚ → Nat
  | [] => 0
  | [_] => 0
  | x :: y :: t => if x < maxVal (y :: t) then argmax (y :: t) + 1 else 0
where
  /-- The maximum value of a nonempty rational list (`0` on `[]`). -/
  maxVal : List ℚ → ℚ
    | [] => 0
    | [x] => x
    | x :: y :: t => max x (maxVal (y :: t))

/-- A detection bounding box as used at src/app.py lines 108-109: the four
integer coordinates `x1, y1, x2, y2` obtained from `bounding_boxes[idx].astype(int)`. -/
structure Box where
  x1 : Int
  y1 : Int
  x2 : Int
  y2 : Int
deriving DecidableEq, Repr

/-- One RGB pixel. -/
abbrev Pixel := Nat × Nat × Nat

/-- A decoded image: a list of rows of pixels (the `np.ndarray` frame). -/
abbrev Frame := List (List Pixel)

/-- Numpy basic slicing `l[a:b]` on one axis: negative indices wrap by the
axis length, then both bounds are clamped to `[0, n]`. -/
def sliceList {α : Type} (l : List α) (a b : Int) : List α :=
  let n := l.length
  let norm : Int → Int := fun i => if i < 0 then i + n else i
  let clamp : Int → Nat := fun i => (min (max (norm i) 0) (n : Int)).toNat
  (l.drop (clamp a)).take (clamp b - clamp a)

/-- Model of `frame[y1:y2, x1:x2, :]` (src/app.py line 112): numpy basic
slicing of the rows by `y1:y2` and of each remaining row by `x1:x2`. -/
def crop (frame : Frame) (b : Box) : Frame :=
  (sliceList frame b.y1 b.y2).map (fun row => sliceList row b.x1 b.x2)

/-- The output of `mtcnn.detect(frame, landmarks=False)`: `none` models the
`(None, None)` result when no face is found; otherwise the parallel arrays
`bounding_boxes` and `probs` are modelled as one list of (box, probability)
pairs, already cast to integer coordinates as line 108 does. -/
abbrev DetOut := Option (List (Box × ℚ))

/-- The candidate selected at src/app.py lines 107-108: the candidate at
index `np.argmax(probs)`; `none` only on an empty candidate list (which the
real MTCNN never produces: it returns `None` instead). -/
def selectedCand (cands : List (Box × ℚ)) : Option (Box × ℚ) :=
  cands[argmax (cands.map Prod.snd)]?

/-- Model of `detect_first_face` (src/app.py lines 102-112): if the detector
returned no candidates, return `none`; otherwise select the candidate with
the highest probability (first index of the maximum), return `none` if its
box has non-positive width or height, and otherwise return the cropped
pixel region of the winning box. -/
def detect_first_face (frame : Frame) (det : DetOut) : Option Frame :=
  match det with
  | none => none
  | some cands =>
    match selectedCand cands with
    | none => none
    | some bp =>
      if bp.1.x2 - bp.1.x1 ≤ 0 ∨ bp.1.y2 - bp.1.y1 ≤ 0 then none
      else some (crop frame bp.1)

/-- Model of the lookup `inv_map[label]` where
`inv_map = {v: k for k, v in class_map.items()}` (src/app.py lines 119-121)
and `class_map` maps class index to label in index order: since later keys of
the comprehension overwrite earlier ones, the lookup yields the LAST index
carrying `label`; `none` models the `KeyError` when `label` is absent. -/
def lastIdxOf (cm : List String) (label : String) : Option Nat :=
  match cm with
  | [] => none
  | c :: rest =>
    match lastIdxOf rest label with
    | some k => some (k + 1)
    | none => if c = label then some 0 else none

/-- Model of `classify_emotion` (src/app.py lines 115-123). The external
recognizer is modelled by its outputs: `cm` is `recognizer.idx_to_emotion_class`
as a list indexed by class index, and `s` is the score row `scores[0]` produced
in probability mode (`logits=False`). The library's top-ranked label
`labels[0]` is `cm[argmax s]`. The code then inverts the class map to recover
an index for that label and reads the confidence from the score row at that
index. `none` models the Python exceptions (`IndexError`/`KeyError`) on
inputs the real pipeline never produces. -/
def classify_emotion (cm : List String) (s : List ℚ) : Option (String × ℚ) :=
  match cm[argmax s]? with
  | none => none
  | some label =>
    match lastIdxOf cm label with
    | none => none
    | some idx =>
      match s[idx]? with
      | none => none
      | some c => some (label, c)

/-- The confidence component computed by `classify_emotion`'s inverse-map
lookup (src/app.py lines 119-122). -/
def derivedConfidence (cm : List String) (s : List ℚ) : Option ℚ :=
  (classify_emotion cm s).map Prod.snd

/-- Modelled from the spec: reading the top-ranked score directly, the
alternative computation that the spec's open question compares against
(the score at the top-ranked class index), which src/app.py does not use. -/
def directTopScore (s : List ℚ) : Option ℚ :=
  s[argmax s]?

/-- One persisted row of the `usage` table (src/app.py lines 31-38 / 58-65):
`id` is the auto-incrementing surrogate key assigned by the backend on
insert; `image` is the raw encoded byte payload. -/
structure Row where
  id : Nat
  name : String
  timestamp : String
  image : List Nat
  emotion : String
  confidence : ℚ
deriving DecidableEq, Repr

/-- The state of the `usage` table: rows in insertion order, plus the next
surrogate key the backend will assign. -/
structure DB where
  rows : List Row
  nextId : Nat
deriving DecidableEq, Repr

/-- The successful `INSERT INTO usage ... ; commit` executed by `save_result`
(src/app.py lines 86-90 and 94-99): appends one row with the next
auto-incremented id. -/
def save_row (db : DB) (name timestamp : String) (image : List Nat)
    (emotion : String) (confidence : ℚ) : DB :=
  { rows := db.rows ++ [⟨db.nextId, name, timestamp, image, emotion, confidence⟩],
    nextId := db.nextId + 1 }

/-- The relational schema objects `init_database` creates: table names and
index names (either backend). -/
structure Schema where
  tables : List String
  indexes : List String
deriving DecidableEq, Repr

/-- Model of `CREATE TABLE IF NOT EXISTS t`: adds `t` only when absent. -/
def createTableIfNotExists (s : Schema) (t : String) : Schema :=
  if t ∈ s.tables then s else { s with tables := s.tables ++ [t] }

/-- Model of `CREATE INDEX IF NOT EXISTS i`: adds `i` only when absent. -/
def createIndexIfNotExists (s : Schema) (i : String) : Schema :=
  if i ∈ s.indexes then s else { s with indexes := s.indexes ++ [i] }

/-- The schema transformation performed by a successful `init_database` run
(src/app.py lines 29-47 for PostgreSQL, 56-67 for SQLite): the PostgreSQL
branch creates the `usage` table and the `idx_timestamp` and `idx_name`
indexes if absent; the SQLite branch creates only the `usage` table. -/
def initSchema (usePostgres : Bool) (s : Schema) : Schema :=
  match usePostgres with
  | true =>
    createIndexIfNotExists
      (createIndexIfNotExists (createTableIfNotExists s "usage") "idx_timestamp")
      "idx_name"
  | false => createTableIfNotExists s "usage"

/-- Outcome of a call to `init_database`: a normal return carrying the
connection value (`none` is the Python `None` sentinel), the resulting
schema, and the error messages displayed via `st.error`; or a propagated
exception. -/
inductive InitResult where
  | ok (conn : Option Unit) (schema : Schema) (errMsgs : List String)
  | raised (e : String)
deriving DecidableEq, Repr

/-- Model of `init_database` (src/app.py lines 23-69). `usePostgres` models
`USE_POSTGRES` (presence of `DATABASE_URL`); `backendErr` models whether the
database driver raises during connect/DDL, and with which message. The
PostgreSQL branch catches `psycopg2.Error`, displays it, and returns `None`
(lines 50-52); the SQLite branch has no handler, so a driver error
propagates, and otherwise a usable connection is returned. -/
def init_database (usePostgres : Bool) (backendErr : Option String)
    (s : Schema) : InitResult :=
  match usePostgres with
  | true =>
    match backendErr with
    | some e => .ok none s ["PostgreSQL connection error: " ++ e]
    | none => .ok (some ()) (initSchema true s) []
  | false =>
    match backendErr with
    | some e => .raised e
    | none => .ok (some ()) (initSchema false s) []

/-- Outcome of a call to `save_result`: a normal return with the updated
table (`ok`), a normal return after catching a backend error and displaying
it via `st.error` (`reported`), or a propagated exception (`raised`). -/
inductive SaveOutcome where
  | ok (db : DB)
  | reported (msg : String) (db : DB)
  | raised (e : String)
deriving DecidableEq, Repr

/-- Model of `save_result` (src/app.py lines 72-99). `backendErr` models
whether the driver raises during cursor/execute/commit. The branch
`if USE_POSTGRES and conn is not None` wraps the insert in a handler for
`psycopg2.Error` that reports via `st.error` and returns normally; every
other case (the SQLite backend, or `USE_POSTGRES` with the `None` sentinel
connection) runs the unguarded insert path, where `conn.cursor()` on `None`
raises `AttributeError` and a driver error propagates uncaught. When
`timestamp` is omitted the current UTC instant `now` is assigned (line 81). -/
def save_result (usePostgres : Bool) (conn : Option Unit)
    (backendErr : Option String) (db : DB) (name : String) (image : List Nat)
    (emotion : String) (confidence : ℚ) (timestamp : Option String)
    (now : String) : SaveOutcome :=
  let ts := timestamp.getD now
  match usePostgres, conn with
  | true, some _ =>
    match backendErr with
    | some e => .reported ("Database error: " ++ e) db
    | none => .ok (save_row db name ts image emotion confidence)
  | true, none => .raised "AttributeError"
  | false, none => .raised "AttributeError"
  | false, some _ =>
    match backendErr with
    | some e => .raised e
    | none => .ok (save_row db name ts image emotion confidence)

/-- Insertion order descending: the row ordering `ORDER BY id DESC` sorts by. -/
def rowGe (a b : Row) : Prop := b.id ≤ a.id

instance : DecidableRel rowGe := fun a b => Nat.decLe b.id a.id

instance : IsTotal Row rowGe := ⟨fun a b => Nat.le_total b.id a.id⟩

instance : IsTrans Row rowGe := ⟨fun _ _ _ h h2 => Nat.le_trans h2 h⟩

/-- The display projection of a row: the columns
`name, timestamp, emotion, confidence` selected by `render_history`
(src/app.py line 136); the `image` payload is excluded. -/
structure Display where
  name : String
  timestamp : String
  emotion : String
  confidence : ℚ
deriving DecidableEq, Repr

/-- The display projection of one row. -/
def toDisplay (r : Row) : Display :=
  ⟨r.name, r.timestamp, r.emotion, r.confidence⟩

/-- The rows produced by
`SELECT ... FROM usage ORDER BY id DESC LIMIT lim` before projection:
sort by id descending, take at most `lim`. -/
def fetchRows (db : DB) (lim : Nat) : List Row :=
  (List.insertionSort rowGe db.rows).take lim

/-- Model of the query in `render_history` (src/app.py lines 135-137),
generalized over the limit (the code fixes `LIMIT 100`):
`SELECT name, timestamp, emotion, confidence FROM usage ORDER BY id DESC
LIMIT lim`. -/
def fetch_recent (db : DB) (lim : Nat) : List Display :=
  (fetchRows db lim).map toDisplay

/-- The row list rendered by `render_history` (src/app.py line 136):
`fetch_recent` with the hard-coded limit of 100. -/
def render_history_rows (db : DB) : List Display :=
  fetch_recent db 100

/-- Counters of model constructions during a session: how many `MTCNN`
instances and how many `EmotiEffLibRecognizer` instances have been
constructed so far in the process. -/
structure ModelState where
  mtcnn : Nat
  recognizer : Nat
deriving DecidableEq, Repr

/-- Variant of `detect_first_face` with its model-construction effect: src/app.py
line 103 constructs a fresh `MTCNN(...)` inside the function body, so every
call increments the instance counter; the returned value is as in
`detect_first_face`. -/
def detect_first_face_instr (ms : ModelState) (frame : Frame) (det : DetOut) :
    ModelState × Option Frame :=
  ({ ms with mtcnn := ms.mtcnn + 1 }, detect_first_face frame det)

/-- The model constructions of one run of `main` (one script execution /
visit): line 164 constructs one `EmotiEffLibRecognizer`, and when an image
and a name were submitted (`visit = some ...`), line 185 calls
`detect_first_face`, constructing one `MTCNN`. -/
def main_run_models (ms : ModelState) (visit : Option (Frame × DetOut)) :
    ModelState :=
  let ms1 := { ms with recognizer := ms.recognizer + 1 }
  match visit with
  | none => ms1
  | some (frame, det) => (detect_first_face_instr ms1 frame det).1

/-- The model constructions of a whole session: one `main` run per visit. -/
def run_visits (ms : ModelState) : List (Option (Frame × DetOut)) → ModelState
  | [] => ms
  | v :: rest => run_visits (main_run_models ms v) rest

/-- The user-visible events emitted by the branch of `main` after inference
(src/app.py lines 184-193). -/
inductive UiEvent where
  | warning (msg : String)
  | success (msg : String)
  | saveButton
  | toast (msg : String)
deriving DecidableEq, Repr

/-- The argument tuple a visit passes to `save_result` when the user
confirms (src/app.py line 192): `save_result(conn, name, raw_bytes, emotion,
confidence)` — the image argument is `raw_bytes`, the original encoded
bytes of the submitted photograph. -/
structure SaveCall where
  name : String
  image : List Nat
  emotion : String
  confidence : ℚ
deriving DecidableEq, Repr

/-- Model of the controller branch of `main` at src/app.py lines 184-193,
entered when an image and a nonempty name were submitted. `classifier`
models `classify_emotion` applied to the recognizer (a function of the face
region); `confirmed` models the save button press. Returns the emitted UI
events and the `save_result` invocation (if any). No face: a warning, no
save button, no save call. Face found: the result is displayed and a save
button offered; only on confirmation is `save_result` invoked — with the
original `raw_bytes`, not the cropped face region — followed by a toast. -/
def visit_branch (name : String) (raw_bytes : List Nat) (frame : Frame)
    (det : DetOut) (classifier : Frame → String × ℚ) (confirmed : Bool) :
    List UiEvent × Option SaveCall :=
  match detect_first_face frame det with
  | none => ([.warning "No face detected in the image."], none)
  | some face =>
    let ec := classifier face
    let shown := [UiEvent.success
      ("Predicted Emotion: " ++ ec.1 ++ " (confidence: " ++ toString ec.2 ++ ")"),
      UiEvent.saveButton]
    match confirmed with
    | true =>
      (shown ++ [.toast "Result saved to database."],
       some ⟨name, raw_bytes, ec.1, ec.2⟩)
    | false => (shown, none)

theorem le_maxVal : ∀ (l : List ℚ), ∀ x ∈ l, x ≤ argmax.maxVal l
  | [] => by simp
  | [a] => by
    intro x hx
    simp only [List.mem_singleton] at hx
    simp [argmax.maxVal, hx]
  | a :: b :: t => by
    intro x hx
    rcases List.mem_cons.mp hx with rfl | hx
    · exact le_max_left _ _
    · exact le_trans (le_maxVal (b :: t) x hx) (le_max_right _ _)

theorem maxVal_mem : ∀ (l : List ℚ), l ≠ [] → argmax.maxVal l ∈ l
  | [a], _ => by simp [argmax.maxVal]
  | a :: b :: t, _ => by
    have hrec := maxVal_mem (b :: t) (by simp)
    rcases max_choice a (argmax.maxVal (b :: t)) with h | h
    · simp [argmax.maxVal, h]
    · simp only [argmax.maxVal, h]
      exact List.mem_cons_of_mem a hrec

theorem argmax_lt_length : ∀ (l : List ℚ), l ≠ [] → argmax l < l.length
  | [a], _ => by simp [argmax]
  | a :: b :: t, _ => by
    by_cases hc : a < argmax.maxVal (b :: t)
    · have hrec := argmax_lt_length (b :: t) (by simp)
      simp only [argmax, if_pos hc]
      exact Nat.succ_lt_succ hrec
    · simp [argmax, if_neg hc]

theorem getElem_argmax :
    ∀ (l : List ℚ) (h : argmax l < l.length), l[argmax l] = argmax.maxVal l
  | [a], _ => rfl
  | a :: b :: t, h => by
    by_cases hc : a < argmax.maxVal (b :: t)
    · have hlt := argmax_lt_length (b :: t) (by simp)
      have harg : argmax (a :: b :: t) = argmax (b :: t) + 1 := by
        simp [argmax, if_pos hc]
      have hrec := getElem_argmax (b :: t) hlt
      simp only [argmax.maxVal]
      rw [max_eq_right (le_of_lt hc)]
      rw [← hrec]
      simp only [harg]
      rw [List.getElem_cons_succ]
    · have harg : argmax (a :: b :: t) = 0 := by simp [argmax, if_neg hc]
      simp only [harg, List.getElem_cons_zero, argmax.maxVal]
      exact (max_eq_left (le_of_not_lt hc)).symm

theorem getElem?_argmax (l : List ℚ) (h : l ≠ []) :
    l[argmax l]? = some (argmax.maxVal l) := by
  have hlt := argmax_lt_length l h
  rw [List.getElem?_eq_getElem hlt, getElem_argmax l hlt]

theorem lastIdxOf_getElem? :
    ∀ (cm : List String) (label : String) (k : Nat),
      lastIdxOf cm label = some k → cm[k]? = some label
  | [], label, k => by simp [lastIdxOf]
  | c :: rest, label, k => by
    intro hk
    simp only [lastIdxOf] at hk
    cases hrest : lastIdxOf rest label with
    | some k0 =>
      rw [hrest] at hk
      injection hk with hk
      subst hk
      have := lastIdxOf_getElem? rest label k0 hrest
      simpa using this
    | none =>
      rw [hrest] at hk
      by_cases hc : c = label
      · rw [if_pos hc] at hk
        injection hk with hk
        subst hk
        simp [hc]
      · rw [if_neg hc] at hk
        exact absurd hk (by simp)

theorem le_lastIdxOf :
    ∀ (cm : List String) (label : String) (m : Nat),
      cm[m]? = some label → ∃ k, lastIdxOf cm label = some k ∧ m ≤ k
  | [], label, m => by simp
  | c :: rest, label, m => by
    intro hm
    cases m with
    | zero =>
      simp only [List.getElem?_cons_zero, Option.some_inj] at hm
      subst hm
      cases hrest : lastIdxOf rest c with
      | some k0 => exact ⟨k0 + 1, by simp [lastIdxOf, hrest], Nat.zero_le _⟩
      | none => exact ⟨0, by simp [lastIdxOf, hrest], Nat.le_refl 0⟩
    | succ m0 =>
      simp only [List.getElem?_cons_succ] at hm
      obtain ⟨k, hk, hle⟩ := le_lastIdxOf rest label m0 hm
      exact ⟨k + 1, by simp [lastIdxOf, hk], Nat.succ_le_succ hle⟩

theorem lastIdxOf_of_nodup (cm : List String) (hnd : cm.Nodup) (i : Nat)
    (hi : i < cm.length) : lastIdxOf cm cm[i] = some i := by
  obtain ⟨k, hk, hle⟩ := le_lastIdxOf cm cm[i] i (List.getElem?_eq_getElem hi)
  have hkget := lastIdxOf_getElem? cm cm[i] k hk
  have hklt : k < cm.length := by
    rcases List.getElem?_eq_some_iff.mp hkget with ⟨h, _⟩
    exact h
  have hkval : cm[k] = cm[i] := by
    rw [List.getElem?_eq_getElem hklt] at hkget
    injection hkget
  have hinj := List.nodup_iff_injective_getElem.mp hnd
  have : (⟨k, hklt⟩ : Fin cm.length) = ⟨i, hi⟩ := hinj hkval
  have : k = i := by injection this
  rw [hk, this]

theorem createTableIfNotExists_mem (s : Schema) (t : String) :
    t ∈ (createTableIfNotExists s t).tables := by
  unfold createTableIfNotExists
  by_cases h : t ∈ s.tables
  · simp [h]
  · simp [h]

theorem createTableIfNotExists_indexes (s : Schema) (t : String) :
    (createTableIfNotExists s t).indexes = s.indexes := by
  unfold createTableIfNotExists
  by_cases h : t ∈ s.tables <;> simp [h]

theorem createTableIfNotExists_of_mem (s : Schema) (t : String)
    (h : t ∈ s.tables) : createTableIfNotExists s t = s := by
  simp [createTableIfNotExists, h]

theorem createIndexIfNotExists_mem (s : Schema) (i : String) :
    i ∈ (createIndexIfNotExists s i).indexes := by
  unfold createIndexIfNotExists
  by_cases h : i ∈ s.indexes
  · simp [h]
  · simp [h]

theorem createIndexIfNotExists_tables (s : Schema) (i : String) :
    (createIndexIfNotExists s i).tables = s.tables := by
  unfold createIndexIfNotExists
  by_cases h : i ∈ s.indexes <;> simp [h]

theorem createIndexIfNotExists_mem_preserve (s : Schema) (i j : String)
    (h : j ∈ s.indexes) : j ∈ (createIndexIfNotExists s i).indexes := by
  unfold createIndexIfNotExists
  by_cases hi : i ∈ s.indexes
  · simpa [hi] using h
  · simp [hi]
    exact Or.inl h

theorem createIndexIfNotExists_of_mem (s : Schema) (i : String)
    (h : i ∈ s.indexes) : createIndexIfNotExists s i = s := by
  simp [createIndexIfNotExists, h]

/-- C1 (counterexample): the claim "save never raises, for both backends"
fails on the code. On the embedded (SQLite) backend a backend error during
save propagates out of `save_result` (the `try/except` at src/app.py lines
84-92 guards only the PostgreSQL path), and a save attempted on the null
sentinel connection left by a failed networked-backend initialize falls into
the unguarded path and raises `AttributeError` on `conn.cursor()`. -/
theorem c1_save_raises_counterexample :
    save_result false (some ()) (some "disk I/O error") ⟨[], 1⟩ "Alice" [0]
        "happy" (1 / 2) none "2026-01-01T00:00:00"
      = .raised "disk I/O error"
    ∧ save_result true none (some "connection lost") ⟨[], 1⟩ "Alice" [0]
        "happy" (1 / 2) none "2026-01-01T00:00:00"
      = .raised "AttributeError" :=
  ⟨rfl, rfl⟩

/-- C1 (amended): backend errors during save are caught and reported (and
`save_result` returns normally) only on the networked backend with a
non-null connection; on the embedded backend a backend error propagates out
of save, and a save attempted on the null sentinel connection raises
(`AttributeError`) instead of reporting. -/
theorem c1_save_error_reporting (c : Unit) (e : String) (db : DB)
    (name : String) (image : List Nat) (emotion : String) (confidence : ℚ)
    (timestamp : Option String) (now : String) :
    save_result true (some c) (some e) db name image emotion confidence
        timestamp now = .reported ("Database error: " ++ e) db
    ∧ save_result false (some c) (some e) db name image emotion confidence
        timestamp now = .raised e
    ∧ save_result true none (some e) db name image emotion confidence
        timestamp now = .raised "AttributeError" :=
  ⟨rfl, rfl, rfl⟩

/-- C2 (counterexample): the claim "for either backend, initialize creates
the usage table and both supporting indexes" fails on the code: the embedded
(SQLite) branch of `init_database` (src/app.py lines 53-69) creates only the
`usage` table and no index, as running it on an empty schema shows. -/
theorem c2_embedded_init_no_indexes_counterexample :
    init_database false none ⟨[], []⟩ = .ok (some ()) ⟨["usage"], []⟩ []
    ∧ (initSchema false ⟨[], []⟩).indexes = [] := by
  constructor <;> decide

/-- C2 (amended): on the networked backend, `init_database` creates the
`usage` table and both supporting indexes when absent; on the embedded
backend it creates only the `usage` table and no indexes; for both backends,
calling initialize twice in sequence does not raise and does not duplicate
the table or its indexes (the second call leaves the schema unchanged). -/
theorem c2_init_schema_idempotent (s : Schema) :
    init_database true none s = .ok (some ()) (initSchema true s) []
    ∧ init_database false none s = .ok (some ()) (initSchema false s) []
    ∧ "usage" ∈ (initSchema true s).tables
    ∧ "idx_timestamp" ∈ (initSchema true s).indexes
    ∧ "idx_name" ∈ (initSchema true s).indexes
    ∧ "usage" ∈ (initSchema false s).tables
    ∧ (initSchema false s).indexes = s.indexes
    ∧ initSchema true (initSchema true s) = initSchema true s
    ∧ initSchema false (initSchema false s) = initSchema false s := by
  refine ⟨rfl, rfl, ?_, ?_, ?_, ?_, ?_, ?_, ?_⟩
  · show "usage" ∈ (createIndexIfNotExists (createIndexIfNotExists
      (createTableIfNotExists s "usage") "idx_timestamp") "idx_name").tables
    rw [createIndexIfNotExists_tables, createIndexIfNotExists_tables]
    exact createTableIfNotExists_mem s "usage"
  · show "idx_timestamp" ∈ (createIndexIfNotExists (createIndexIfNotExists
      (createTableIfNotExists s "usage") "idx_timestamp") "idx_name").indexes
    exact createIndexIfNotExists_mem_preserve _ _ _
      (createIndexIfNotExists_mem _ _)
  · exact createIndexIfNotExists_mem _ _
  · exact createTableIfNotExists_mem s "usage"
  · exact createTableIfNotExists_indexes s "usage"
  · show initSchema true (initSchema true s) = initSchema true s
    unfold initSchema
    have h1 : "usage" ∈ (createIndexIfNotExists (createIndexIfNotExists
        (createTableIfNotExists s "usage") "idx_timestamp") "idx_name").tables := by
      rw [createIndexIfNotExists_tables, createIndexIfNotExists_tables]
      exact createTableIfNotExists_mem s "usage"
    rw [createTableIfNotExists_of_mem _ _ h1]
    have h2 : "idx_timestamp" ∈ (createIndexIfNotExists (createIndexIfNotExists
        (createTableIfNotExists s "usage") "idx_timestamp") "idx_name").indexes :=
      createIndexIfNotExists_mem_preserve _ _ _ (createIndexIfNotExists_mem _ _)
    rw [createIndexIfNotExists_of_mem _ _ h2]
    exact createIndexIfNotExists_of_mem _ _ (createIndexIfNotExists_mem _ _)
  · show createTableIfNotExists (createTableIfNotExists s "usage") "usage"
      = createTableIfNotExists s "usage"
    exact createTableIfNotExists_of_mem _ _ (createTableIfNotExists_mem s "usage")

/-- C3 (counterexample): the claim "each model is loaded exactly once per
session configuration and reused; neither operation constructs a new model
per call" fails on the code: src/app.py line 103 constructs a fresh `MTCNN`
inside every `detect_first_face` call and line 164 constructs a fresh
`EmotiEffLibRecognizer` on every run of `main`, so a session of two visits
that each run detection has constructed two instances of each model. -/
theorem c3_models_reconstructed_counterexample :
    (run_visits ⟨0, 0⟩ [some ([], none), some ([], none)]).mtcnn = 2
    ∧ (run_visits ⟨0, 0⟩ [some ([], none), some ([], none)]).recognizer = 2
    ∧ (run_visits ⟨0, 0⟩ [some ([], none), some ([], none)]).mtcnn ≠ 1 := by
  refine ⟨rfl, rfl, ?_⟩
  decide

/-- C3 (amended): neither model is loaded once and reused: the emotion
recognizer is constructed anew on every visit (every run of `main`) and the
face-detection model is constructed anew on every `detect_first_face` call,
so after a session the recognizer instance count has grown by the number of
visits and the MTCNN instance count by the number of visits that ran
detection. -/
theorem c3_models_constructed_per_call (ms : ModelState)
    (visits : List (Option (Frame × DetOut))) :
    (run_visits ms visits).recognizer = ms.recognizer + visits.length
    ∧ (run_visits ms visits).mtcnn = ms.mtcnn + visits.countP Option.isSome := by
  induction visits generalizing ms with
  | nil => simp [run_visits]
  | cons v rest ih =>
    obtain ⟨ih1, ih2⟩ := ih (main_run_models ms v)
    constructor
    · rw [run_visits, ih1]
      cases v <;> simp [main_run_models, detect_first_face_instr] <;> omega
    · rw [run_visits, ih2]
      cases v with
      | none => simp [main_run_models, List.countP_cons, Option.isSome]
      | some fd =>
        simp [main_run_models, detect_first_face_instr, List.countP_cons,
          Option.isSome]
        omega

/-- C9: in embedded-store mode (with `USE_POSTGRES` false), `init_database` never
returns the `None` sentinel connection: it either raises (the SQLite branch
has no exception handler) or returns a usable connection together with the
initialized schema and no error message; the null-connection degraded path
exists only in the networked branch. -/
theorem c9_embedded_init_never_null (backendErr : Option String) (s : Schema) :
    (∃ e, init_database false backendErr s = .raised e)
    ∨ init_database false backendErr s = .ok (some ()) (initSchema false s) [] := by
  cases backendErr with
  | some e => exact Or.inl ⟨e, rfl⟩
  | none => exact Or.inr rfl

theorem selectedCand_ne_nil {cands : List (Box × ℚ)} {bp : Box × ℚ}
    (h : selectedCand cands = some bp) : cands ≠ [] := by
  intro hcc
  subst hcc
  exact Option.noConfusion h

theorem selectedCand_prob_max (cands : List (Box × ℚ)) (b : Box) (p : ℚ)
    (h : selectedCand cands = some (b, p)) :
    ∀ q ∈ cands.map Prod.snd, q ≤ p := by
  have hc : cands ≠ [] := selectedCand_ne_nil h
  have hmne : cands.map Prod.snd ≠ [] := by simpa using hc
  have h2 := getElem?_argmax (cands.map Prod.snd) hmne
  rw [List.getElem?_map] at h2
  unfold selectedCand at h
  rw [h] at h2
  simp only [Option.map_some'] at h2
  injection h2 with h2
  intro q hq
  rw [h2]
  exact le_maxVal _ q hq

theorem selectedCand_of_ne_nil (cands : List (Box × ℚ)) (hc : cands ≠ []) :
    ∃ bp, selectedCand cands = some bp := by
  have hmne : cands.map Prod.snd ≠ [] := by simpa using hc
  have hlt := argmax_lt_length (cands.map Prod.snd) hmne
  rw [List.length_map] at hlt
  exact ⟨cands[argmax (cands.map Prod.snd)], List.getElem?_eq_getElem hlt⟩

/-- C10: when the highest-probability candidate box has non-positive width
or height, `detect_first_face` returns `none` for the whole image — whatever
the other candidates look like, including candidates with strictly positive
width and height: it never falls back to a lower-probability candidate
(src/app.py lines 107-112 inspect only the argmax candidate). -/
theorem c10_no_fallback_on_degenerate_winner (frame : Frame)
    (cands : List (Box × ℚ)) (b : Box) (p : ℚ)
    (hsel : selectedCand cands = some (b, p))
    (hdeg : b.x2 - b.x1 ≤ 0 ∨ b.y2 - b.y1 ≤ 0) :
    detect_first_face frame (some cands) = none := by
  simp only [detect_first_face, hsel]
  exact if_pos hdeg

theorem c10_no_fallback_witness :
    detect_first_face [] (some [(⟨0, 0, 0, 5⟩, 1), (⟨0, 0, 5, 5⟩, 0)]) = none
    ∧ (0 : ℤ) < 5 - 0 :=
  ⟨c10_no_fallback_on_degenerate_winner [] _ ⟨0, 0, 0, 5⟩ 1 (by decide)
      (Or.inl (by decide)),
    by decide⟩

/-- C4: the function `detect_first_face` returns `none` exactly when the detector found
no candidates or the selected (highest-probability) box has non-positive
width or height; for the selected candidate, its probability is the maximum
over all candidates, and when its box has strictly positive width and
height the result is the cropped pixel region of that winning box. (The
hypothesis excludes the empty candidate array, which MTCNN signals as
`None` rather than as an empty list.) -/
theorem c4_locate_primary_face_spec (frame : Frame) (det : DetOut)
    (hne : det ≠ some []) :
    (detect_first_face frame det = none ↔
      det = none ∨ ∃ cands b p, det = some cands
        ∧ selectedCand cands = some (b, p)
        ∧ (b.x2 - b.x1 ≤ 0 ∨ b.y2 - b.y1 ≤ 0))
    ∧ ∀ cands b p, det = some cands → selectedCand cands = some (b, p) →
        (∀ q ∈ cands.map Prod.snd, q ≤ p)
        ∧ (0 < b.x2 - b.x1 → 0 < b.y2 - b.y1 →
            detect_first_face frame det = some (crop frame b)) := by
  cases det with
  | none =>
    constructor
    · simp [detect_first_face]
    · intro cands b p hdet
      exact absurd hdet (by simp)
  | some cands =>
    have hc : cands ≠ [] := by
      intro h
      exact hne (by rw [h])
    obtain ⟨bp, hbp⟩ := selectedCand_of_ne_nil cands hc
    constructor
    · constructor
      · intro h
        by_cases hdeg : bp.1.x2 - bp.1.x1 ≤ 0 ∨ bp.1.y2 - bp.1.y1 ≤ 0
        · exact Or.inr ⟨cands, bp.1, bp.2, rfl, hbp, hdeg⟩
        · exfalso
          simp only [detect_first_face, hbp, if_neg hdeg] at h
          exact Option.noConfusion h
      · rintro (h | ⟨cands', b, p, hdet, hsel', hdeg⟩)
        · exact absurd h (by simp)
        · injection hdet with hdet
          subst hdet
          simp only [detect_first_face, hsel']
          exact if_pos hdeg
    · intro cands' b p hdet hsel'
      injection hdet with hdet
      subst hdet
      refine ⟨selectedCand_prob_max _ b p hsel', ?_⟩
      intro hw hh
      simp only [detect_first_face, hsel']
      rw [if_neg]
      rintro (h | h) <;> omega

theorem c4_locate_primary_face_witness :
    detect_first_face [[(1, 2, 3), (4, 5, 6)], [(7, 8, 9), (10, 11, 12)]]
        (some [(⟨0, 0, 1, 1⟩, 1)])
      = some [[(1, 2, 3)]] := by
  have h := ((c4_locate_primary_face_spec
      [[(1, 2, 3), (4, 5, 6)], [(7, 8, 9), (10, 11, 12)]]
      (some [(⟨0, 0, 1, 1⟩, 1)]) (by decide)).2
    [(⟨0, 0, 1, 1⟩, 1)] ⟨0, 0, 1, 1⟩ 1 rfl (by decide)).2 (by decide) (by decide)
  rw [h]
  decide

/-- C6: under the contract of the external recognizer — a nonempty score
row, one score per class of the label map, all scores probabilities in
[0, 1] — `classify_emotion` returns a label drawn from the model's label
map together with a confidence score within [0, 1]. -/
theorem c6_classify_contract (cm : List String) (s : List ℚ)
    (hne : s ≠ []) (hlen : s.length = cm.length)
    (hprob : ∀ x ∈ s, 0 ≤ x ∧ x ≤ 1) :
    ∃ label c, classify_emotion cm s = some (label, c)
      ∧ label ∈ cm ∧ 0 ≤ c ∧ c ≤ 1 := by
  have hm : argmax s < s.length := argmax_lt_length s hne
  have hmc : argmax s < cm.length := hlen ▸ hm
  have hLbl : cm[argmax s]? = some cm[argmax s] := List.getElem?_eq_getElem hmc
  obtain ⟨k, hk, _⟩ := le_lastIdxOf cm cm[argmax s] (argmax s) hLbl
  have hkget := lastIdxOf_getElem? cm cm[argmax s] k hk
  have hklt : k < cm.length := (List.getElem?_eq_some_iff.mp hkget).1
  have hks : k < s.length := by rw [hlen]; exact hklt
  refine ⟨cm[argmax s], s[k], ?_, List.getElem_mem hmc,
    (hprob s[k] (List.getElem_mem hks)).1, (hprob s[k] (List.getElem_mem hks)).2⟩
  simp only [classify_emotion, hLbl, hk, List.getElem?_eq_getElem hks]

theorem c6_classify_contract_witness :
    ∃ label c, classify_emotion ["happy", "sad"] [1, 0] = some (label, c)
      ∧ label ∈ ["happy", "sad"] ∧ 0 ≤ c ∧ c ≤ 1 :=
  c6_classify_contract ["happy", "sad"] [1, 0] (by decide) rfl (by decide)

/-- C8: in every visit, the controller branch offers the save action only
after a face was found: no face produces exactly the warning with no save
button and no `save_result` invocation (hence zero new rows); a save call
happens only on confirmation with a face found, and its image argument is
the original encoded bytes `raw_bytes` of the submitted photograph, not the
cropped face region. -/
theorem c8_controller_save_spec (name : String) (raw_bytes : List Nat)
    (frame : Frame) (det : DetOut) (classifier : Frame → String × ℚ)
    (confirmed : Bool) :
    (detect_first_face frame det = none →
      visit_branch name raw_bytes frame det classifier confirmed
        = ([.warning "No face detected in the image."], none))
    ∧ (UiEvent.saveButton
          ∈ (visit_branch name raw_bytes frame det classifier confirmed).1
        ↔ detect_first_face frame det ≠ none)
    ∧ (∀ call,
        (visit_branch name raw_bytes frame det classifier confirmed).2
            = some call →
          confirmed = true ∧ call.image = raw_bytes
          ∧ ∃ face, detect_first_face frame det = some face
              ∧ call = ⟨name, raw_bytes, (classifier face).1, (classifier face).2⟩)
    ∧ (∀ face, detect_first_face frame det = some face → confirmed = true →
        (visit_branch name raw_bytes frame det classifier confirmed).2
          = some ⟨name, raw_bytes, (classifier face).1, (classifier face).2⟩) := by
  cases hdet : detect_first_face frame det with
  | none =>
    simp only [visit_branch, hdet]
    refine ⟨?_, ?_, ?_, ?_⟩
    · simp
    · simp
    · intro call hcall
      exact absurd hcall (by simp)
    · intro face hface
      exact absurd hface (by simp)
  | some face0 =>
    simp only [visit_branch, hdet]
    cases confirmed with
    | false =>
      refine ⟨?_, ?_, ?_, ?_⟩
      · simp
      · simp
      · intro call hcall
        exact absurd hcall (by simp)
      · intro face hface hconf
        exact absurd hconf (by simp)
    | true =>
      refine ⟨?_, ?_, ?_, ?_⟩
      · simp
      · simp
      · intro call hcall
        simp only [Option.some_inj] at hcall
        subst hcall
        exact ⟨rfl, rfl, face0, rfl, rfl⟩
      · intro face hface hconf
        simp only [Option.some_inj] at hface
        subst hface
        rfl

theorem c8_controller_save_witness :
    (visit_branch "Alice" [1, 2]
        [[(1, 2, 3), (4, 5, 6)], [(7, 8, 9), (10, 11, 12)]]
        (some [(⟨0, 0, 1, 1⟩, 1)]) (fun _ => ("happy", 1 / 2)) true).2
      = some ⟨"Alice", [1, 2], "happy", 1 / 2⟩ := by
  have h := (c8_controller_save_spec "Alice" [1, 2]
      [[(1, 2, 3), (4, 5, 6)], [(7, 8, 9), (10, 11, 12)]]
      (some [(⟨0, 0, 1, 1⟩, 1)]) (fun _ => ("happy", 1 / 2)) true).2.2.2
  exact h [[(1, 2, 3)]] (by decide) rfl

theorem insertionSort_append_singleton_head (rows : List Row) (new : Row)
    (hmax : ∀ r ∈ rows, r.id < new.id) :
    (List.insertionSort rowGe (rows ++ [new])).take 1 = [new] := by
  have hperm := List.perm_insertionSort rowGe (rows ++ [new])
  have hsorted := List.sorted_insertionSort rowGe (rows ++ [new])
  cases hl : List.insertionSort rowGe (rows ++ [new]) with
  | nil =>
    exfalso
    have hlen := hperm.length_eq
    rw [hl] at hlen
    simp at hlen
  | cons hd tl =>
    have hhd_mem : hd ∈ rows ++ [new] := by
      refine hperm.subset ?_
      rw [hl]
      exact List.mem_cons_self hd tl
    have hnew_mem : new ∈ hd :: tl := by
      rw [← hl]
      exact hperm.mem_iff.mpr (List.mem_append_right _ (List.mem_singleton_self new))
    have hhd : hd = new := by
      rcases List.mem_cons.mp hnew_mem with h | h
      · exact h.symm
      · have hrel : rowGe hd new := by
          rw [hl] at hsorted
          exact List.rel_of_sorted_cons hsorted new h
        have hge : new.id ≤ hd.id := hrel
        rcases List.mem_append.mp hhd_mem with hin | hin
        · exact absurd (hmax hd hin) (by omega)
        · simpa using hin
    simp [hhd]

/-- C7: for every database state whose row ids precede the next surrogate
key, and every limit N, the history query returns at most N records, the
pre-projection rows are sorted by id (= insertion order) descending, each
returned record is the display projection (name, timestamp, emotion,
confidence; no image) of a stored row, an empty table yields the empty
sequence, and after a save the query with limit 1 returns exactly the
just-saved record's display fields. -/
theorem c7_fetch_recent_spec (db : DB) (lim : Nat)
    (hinv : ∀ r ∈ db.rows, r.id < db.nextId) :
    (fetch_recent db lim).length ≤ lim
    ∧ List.Sorted rowGe (fetchRows db lim)
    ∧ (∀ d ∈ fetch_recent db lim, ∃ r ∈ db.rows, d = toDisplay r)
    ∧ (db.rows = [] → fetch_recent db lim = [])
    ∧ ∀ name ts image emotion confidence,
        fetch_recent (save_row db name ts image emotion confidence) 1
          = [⟨name, ts, emotion, confidence⟩] := by
  refine ⟨?_, ?_, ?_, ?_, ?_⟩
  · simp [fetch_recent, fetchRows, List.length_take]
  · exact (List.sorted_insertionSort rowGe db.rows).sublist (List.take_sublist _ _)
  · intro d hd
    simp only [fetch_recent, fetchRows, List.mem_map] at hd
    obtain ⟨r, hr, rfl⟩ := hd
    have hr2 : r ∈ List.insertionSort rowGe db.rows := List.take_subset _ _ hr
    exact ⟨r, (List.perm_insertionSort rowGe db.rows).subset hr2, rfl⟩
  · intro h
    simp [fetch_recent, fetchRows, h]
  · intro name ts image emotion confidence
    have h := insertionSort_append_singleton_head db.rows
      ⟨db.nextId, name, ts, image, emotion, confidence⟩
      (fun r hr => hinv r hr)
    simp only [fetch_recent, fetchRows, save_row]
    rw [h]
    rfl

theorem c7_fetch_recent_witness :
    fetch_recent (save_row ⟨[⟨0, "Bob", "t0", [5], "sad", 1 / 3⟩], 1⟩
        "Alice" "t1" [9] "happy" (1 / 2)) 1
      = [⟨"Alice", "t1", "happy", 1 / 2⟩] :=
  (c7_fetch_recent_spec ⟨[⟨0, "Bob", "t0", [5], "sad", 1 / 3⟩], 1⟩ 1
      (by decide)).2.2.2.2 "Alice" "t1" [9] "happy" (1 / 2)

theorem derived_ne_direct_of_dup (cm : List String) (i j : Nat)
    (hi : i < cm.length) (hj : j < cm.length) (hij : i < j)
    (heq : cm[i] = cm[j]) :
    derivedConfidence cm
        ((List.range cm.length).map fun t => if t = i then (1 : ℚ) else 0)
      ≠ directTopScore
        ((List.range cm.length).map fun t => if t = i then (1 : ℚ) else 0) := by
  set s := (List.range cm.length).map fun t => if t = i then (1 : ℚ) else 0 with hs
  have hslen : s.length = cm.length := by simp [hs]
  have hsget : ∀ m, m < cm.length →
      ∀ hm2 : m < s.length, s[m] = if m = i then (1 : ℚ) else 0 := by
    intro m hm hm2
    simp [hs]
  have hsne : s ≠ [] := by
    have hpos : 0 < s.length := by omega
    exact List.ne_nil_of_length_pos hpos
  have hi_s : i < s.length := by omega
  have hone_mem : (1 : ℚ) ∈ s := by
    have h1 : s[i] = 1 := by rw [hsget i hi hi_s]; simp
    rw [← h1]
    exact List.getElem_mem hi_s
  have hball : ∀ x ∈ s, x ≤ 1 := by
    intro x hx
    rw [hs] at hx
    simp only [List.mem_map] at hx
    obtain ⟨t, _, rfl⟩ := hx
    split <;> norm_num
  have hmax1 : argmax.maxVal s = 1 := by
    apply le_antisymm
    · exact hball _ (maxVal_mem s hsne)
    · exact le_maxVal s 1 hone_mem
  have hargmax_lt : argmax s < s.length := argmax_lt_length s hsne
  have hargmax : argmax s = i := by
    have hval : s[argmax s] = 1 := by rw [getElem_argmax s hargmax_lt, hmax1]
    by_contra hne2
    have h0 : s[argmax s] = 0 := by
      rw [hsget (argmax s) (by omega) hargmax_lt]
      simp [hne2]
    rw [h0] at hval
    norm_num at hval
  have hLbl : cm[argmax s]? = some cm[i] := by
    rw [hargmax]
    exact List.getElem?_eq_getElem hi
  have hjget : cm[j]? = some cm[i] := by
    rw [List.getElem?_eq_getElem hj, heq]
  obtain ⟨k, hk, hjk⟩ := le_lastIdxOf cm cm[i] j hjget
  have hkget := lastIdxOf_getElem? cm cm[i] k hk
  have hklt : k < cm.length := (List.getElem?_eq_some_iff.mp hkget).1
  have hki : k ≠ i := by omega
  have hsk : s[k]? = some 0 := by
    have hks : k < s.length := by omega
    rw [List.getElem?_eq_getElem hks, hsget k hklt hks]
    simp [hki]
  have hderiv : derivedConfidence cm s = some 0 := by
    simp only [derivedConfidence, classify_emotion, hLbl, hk, hsk]
    rfl
  have hdirect : directTopScore s = some 1 := by
    have hi_s2 : argmax s < s.length := hargmax_lt
    simp only [directTopScore]
    rw [List.getElem?_eq_getElem hi_s2, getElem_argmax s hargmax_lt, hmax1]
  rw [hderiv, hdirect]
  simp

/-- C5: computing the confidence of the top-ranked label through the
inverse of the label map (label → class index → score), as
`classify_emotion` does, agrees with reading the top-ranked score directly
for every score row (of one score per class) if and only if the label map
is a bijection of class indices onto the label set (i.e. no duplicate
labels); when the map is not injective the two computations differ on some
score row. -/
theorem c5_inverse_lookup_iff_nodup (cm : List String) :
    (∀ s : List ℚ, s.length = cm.length →
        derivedConfidence cm s = directTopScore s) ↔ cm.Nodup := by
  constructor
  · intro h
    by_contra hnd
    rw [List.nodup_iff_injective_getElem] at hnd
    simp only [Function.Injective] at hnd
    push_neg at hnd
    obtain ⟨a, b, hab, hne⟩ := hnd
    have hne2 : a.1 ≠ b.1 := fun hv => hne (Fin.ext hv)
    rcases Nat.lt_or_ge a.1 b.1 with hlt | hge
    · exact derived_ne_direct_of_dup cm a.1 b.1 a.2 b.2 hlt hab (h _ (by simp))
    · have hlt : b.1 < a.1 := by omega
      exact derived_ne_direct_of_dup cm b.1 a.1 b.2 a.2 hlt hab.symm
        (h _ (by simp))
  · intro hnd s hlen
    by_cases hne : s = []
    · subst hne
      have hcm : cm = [] := by
        cases cm with
        | nil => rfl
        | cons c rest => simp at hlen
      subst hcm
      rfl
    · have hm : argmax s < s.length := argmax_lt_length s hne
      have hmc : argmax s < cm.length := by rw [← hlen]; exact hm
      have hLbl : cm[argmax s]? = some cm[argmax s] := List.getElem?_eq_getElem hmc
      have hk := lastIdxOf_of_nodup cm hnd (argmax s) hmc
      have hself : s[argmax s]? = some s[argmax s] := List.getElem?_eq_getElem hm
      simp only [derivedConfidence, classify_emotion, directTopScore, hLbl, hk,
        hself]
      rfl

theorem c5_inverse_lookup_witness :
    (∀ s : List ℚ, s.length = (["happy", "sad"] : List String).length →
        derivedConfidence ["happy", "sad"] s = directTopScore s)
      ↔ (["happy", "sad"] : List String).Nodup :=
  c5_inverse_lookup_iff_nodup ["happy", "sad"]
